import Mathlib

/-!
Verification of the tabular ingestion and schema-inference pipeline of this
repository (`helper/gen_sql_chunk.py`) against its natural-language
specification.  Names are modelled as lists of characters; the pandas
`DataFrame` is modelled as a `Frame` (column names plus rows of Python
scalars); the external parsers and the pandas sampling/dtype machinery are
modelled by explicit, documented functions.
-/

namespace SqlIngest

/-- A JSON value as produced by Python's `json.loads`: JSON numbers become
Python `int` when they have no fractional part and `float` otherwise, so the
two are separate constructors.  Floats are carried as rationals: no claim
inspects float arithmetic, only the kind tag. -/
inductive JValue where
  | jnull : JValue
  | jbool (b : Bool) : JValue
  | jint (n : Int) : JValue
  | jfloat (q : Rat) : JValue
  | jstr (s : List Char) : JValue
  | jarr (xs : List JValue) : JValue
  | jobj (fields : List (List Char × JValue)) : JValue

/-- A Python scalar value as it sits in a pandas cell.  `none` covers both
Python `None` and the NaN a missing field becomes; `nested` covers a JSON
container kept as an object cell by pandas. -/
inductive PyVal where
  | none : PyVal
  | bool (b : Bool) : PyVal
  | int (n : Int) : PyVal
  | float (q : Rat) : PyVal
  | str (s : List Char) : PyVal
  | nested (j : JValue) : PyVal

/-- Decimal digits of `n`, most significant first, with `fuel` bounding the
recursion depth (each step divides by 10, and `fuel = n` suffices). -/
def natReprAux : Nat → Nat → List Char
  | 0, _ => []
  | _ + 1, 0 => []
  | fuel + 1, n + 1 => natReprAux fuel ((n + 1) / 10) ++ [Nat.digitChar ((n + 1) % 10)]

/-- Decimal representation of a natural number, as Python's `str(n)` renders
it inside the f-strings `f"column_{i}"` and `f"{col}_{counter}"`. -/
def natRepr (n : Nat) : List Char :=
  if n = 0 then ['0'] else natReprAux n n

/-- Numeric value of a decimal digit character (used only in proofs, to show
`natRepr` is injective). -/
def charVal (c : Char) : Nat := c.toNat - 48

/-- Parse a digit string back to a number (used only in proofs). -/
def decVal (l : List Char) : Nat :=
  l.foldl (fun acc c => acc * 10 + charVal c) 0

/-! ## Column-name sanitization (`create_sqlite_from_uploaded_file`, lines 314-370) -/

/-- Python `s.replace(a, b)` for a single-character pattern: every occurrence
of `a` is replaced by `b`. -/
def pyReplace (a b : Char) (s : List Char) : List Char :=
  s.map fun c => if c = a then b else c

/-- The chain of 26 `.replace(x, '_')` calls applied to each column name
(source lines 315-343), in source order. -/
def cleanName (s : List Char) : List Char :=
  pyReplace '|' '_' <| pyReplace '=' '_' <| pyReplace '+' '_' <| pyReplace '*' '_' <|
  pyReplace '&' '_' <| pyReplace '^' '_' <| pyReplace '%' '_' <| pyReplace '$' '_' <|
  pyReplace '#' '_' <| pyReplace '@' '_' <| pyReplace '!' '_' <| pyReplace '?' '_' <|
  pyReplace ',' '_' <| pyReplace ';' '_' <| pyReplace ':' '_' <| pyReplace '\x7d' '_' <|
  pyReplace '\x7b' '_' <| pyReplace ']' '_' <| pyReplace '[' '_' <| pyReplace '\\' '_' <|
  pyReplace '/' '_' <| pyReplace ')' '_' <| pyReplace '(' '_' <| pyReplace '.' '_' <|
  pyReplace '-' '_' <| pyReplace ' ' '_' s

/-- The fixed blocklist the specification describes: space, hyphen, period,
and the ASCII punctuation set. -/
def blocklist : List Char :=
  [' ', '-', '.', '(', ')', '/', '\\', '[', ']', '\x7b', '\x7d', ':', ';', ',',
   '?', '!', '@', '#', '$', '%', '^', '&', '*', '+', '=', '|']

/-- Python `s.split(sep)` for a one-character separator: keeps empty
fragments, and splitting the empty string yields one empty fragment. -/
def consHead (c : Char) : List (List Char) → List (List Char)
  | [] => [[c]]
  | p :: ps => (c :: p) :: ps

/-- See `consHead`; this is the recursive split itself. -/
def pySplit (sep : Char) : List Char → List (List Char)
  | [] => [[]]
  | c :: cs => if c = sep then [] :: pySplit sep cs else consHead c (pySplit sep cs)

/-- Python `sep.join(parts)` for a one-character separator. -/
def joinSep (sep : Char) : List (List Char) → List Char
  | [] => []
  | [p] => p
  | p :: ps => p ++ sep :: joinSep sep ps

/-- Source line 347: `'_'.join([part for part in col.split('_') if part])` —
collapse runs of underscores and strip leading/trailing underscores by
rejoining the non-empty fragments. -/
def collapseName (s : List Char) : List Char :=
  joinSep '_' ((pySplit '_' s).filter fun p => !p.isEmpty)

/-- The positional placeholder `f"column_{i}"` of source line 352. -/
def pname (i : Nat) : List Char :=
  ['c', 'o', 'l', 'u', 'm', 'n'] ++ '_' :: natRepr i

/-- Source line 352: `[f"column_{i}" if col == "" else col for i, col in
enumerate(df.columns)]`, with the running zero-based index made explicit. -/
def placeholderPass (i : Nat) : List (List Char) → List (List Char)
  | [] => []
  | c :: cs => (if c = [] then pname i else c) :: placeholderPass (i + 1) cs

/-- The candidate name `f"{col}_{counter}"` of source lines 360-363. -/
def suffixName (col : List Char) (k : Nat) : List Char :=
  col ++ '_' :: natRepr k

/-- The `while new_col in seen_columns: counter += 1` loop of source lines
361-363: starting from candidate index `k`, return the first index whose
suffixed name is not among the names seen so far.  The loop terminates
because the suffixed names are pairwise distinct and `seen` is finite;
`fuel = seen.length + 1` steps always suffice (proved below). -/
def findCounter (col : List Char) (seen : List (List Char)) : Nat → Nat → Nat
  | 0, k => k
  | fuel + 1, k =>
    if suffixName col k ∈ seen then findCounter col seen fuel (k + 1) else k

/-- The suffix index the `counter` loop settles on, starting from 1. -/
def freshIdx (col : List Char) (seen : List (List Char)) : Nat :=
  findCounter col seen (seen.length + 1) 1

/-- Source lines 355-370: scan the columns in order, keeping a set of names
already emitted; a column whose name was already emitted gets the smallest
positive suffix that produces an unseen name. -/
def makeUnique : List (List Char) → List (List Char) → List (List Char)
  | _, [] => []
  | seen, col :: rest =>
    if col ∈ seen then
      suffixName col (freshIdx col seen) ::
        makeUnique (suffixName col (freshIdx col seen) :: seen) rest
    else
      col :: makeUnique (col :: seen) rest

/-- The full column-name sanitization of source lines 314-370: blocklist
replacement, underscore collapsing, empty-name placeholders, then duplicate
suffixing.  (`str(col)` is the identity here because column names are
already character lists in this model.) -/
def sanitizeColumns (cols : List (List Char)) : List (List Char) :=
  makeUnique [] (placeholderPass 0 ((cols.map cleanName).map collapseName))

/-! ## Sampling (`create_sqlite_from_uploaded_file`, lines 309-312) -/

/-- A linear-congruential step; stands in for the pseudo-random stream pandas
derives from the seed.  Any deterministic generator is a faithful model for
the claims proved here, which concern determinism and sample size, not the
identity of the selected rows. -/
def lcg (s : Nat) : Nat := (s * 1103515245 + 12345) % 2147483648

/-- Draw `n` rows without replacement: repeatedly pick an index from the
generator state and remove that row.  Models the membership-irrelevant part
of `DataFrame.sample(n=..., random_state=...)`: deterministic in the seed,
without replacement, exactly `min n rows.length` rows. -/
def sampleRows {ρ : Type} (seed : Nat) : Nat → List ρ → List ρ
  | 0, _ => []
  | _ + 1, [] => []
  | n + 1, r :: rs =>
    let s := lcg seed
    let i := s % (r :: rs).length
    (r :: rs).get ⟨i, Nat.mod_lt _ (Nat.succ_pos _)⟩ ::
      sampleRows s n ((r :: rs).eraseIdx i)

/-- Models `DataFrame.sample(n, random_state)`: when `random_state` is given
(the source always passes the literal `42`), the ambient generator state is
ignored and the draw is a pure function of the seed. -/
def pdSample {ρ : Type} (randomState : Option Nat) (ambient : Nat)
    (n : Nat) (rows : List ρ) : List ρ :=
  match randomState with
  | Option.none => sampleRows ambient n rows
  | some s => sampleRows s n rows

/-! ## Frames, tables and ingestion -/

/-- A pandas `DataFrame` reduced to what the pipeline observes: an ordered
list of column names and an ordered list of rows. -/
structure Frame where
  cols : List (List Char)
  rows : List (List PyVal)

/-- The Target Table: name, sanitized column names, and the (possibly
sampled) rows, as handed to `df.to_sql`. -/
structure Table where
  name : List Char
  cols : List (List Char)
  rows : List (List PyVal)

/-- The error taxonomy of the spec, mapped onto the `ValueError`s the source
raises: `emptySource` is `"The uploaded file contains no data"` (line 307),
`unsupportedJSONShape` is `"Unsupported JSON structure"` (line 298), and
`unsupportedFileType` is `"Unsupported file type: ..."` (line 301). -/
inductive IngestErr where
  | emptySource : IngestErr
  | unsupportedJSONShape : IngestErr
  | unsupportedFileType : IngestErr
  deriving DecidableEq

/-- Scalar conversion into a pandas cell; containers stay behind as object
cells. -/
def jToPy : JValue → PyVal
  | .jnull => PyVal.none
  | .jbool b => PyVal.bool b
  | .jint n => PyVal.int n
  | .jfloat q => PyVal.float q
  | .jstr s => PyVal.str s
  | .jarr xs => PyVal.nested (.jarr xs)
  | .jobj fs => PyVal.nested (.jobj fs)

/-- First-appearance-ordered union of keys, as pandas computes the column
set of a frame built from a list of dicts. -/
def addKeys (acc : List (List Char)) : List (List Char) → List (List Char)
  | [] => acc
  | k :: ks => if k ∈ acc then addKeys acc ks else addKeys (acc ++ [k]) ks

/-- Keys of a list of JSON objects, in first-appearance order. -/
def unionKeys (objs : List (List (List Char × JValue))) : List (List Char) :=
  objs.foldl (fun acc fs => addKeys acc (fs.map Prod.fst)) []

/-- First value bound to `k`, if any. -/
def lookupKey (k : List Char) : List (List Char × JValue) → Option JValue
  | [] => Option.none
  | (k', v) :: rest => if k' = k then some v else lookupKey k rest

/-- One row of a record frame: the object's value for each column, a missing
field becoming a null cell (pandas NaN). -/
def objRow (cols : List (List Char)) (fs : List (List Char × JValue)) : List PyVal :=
  cols.map fun k =>
    match lookupKey k fs with
    | some v => jToPy v
    | Option.none => PyVal.none

/-- Is this JSON value an object? -/
def isObjVal : JValue → Bool
  | .jobj _ => true
  | _ => false

/-- Fields of an object (empty list otherwise). -/
def objFields : JValue → List (List Char × JValue)
  | .jobj fs => fs
  | _ => []

/-- Models `pd.DataFrame(xs)` for a list of parsed JSON values: a list of
dicts becomes a record frame (columns are the first-appearance key union,
missing fields become nulls); a list of non-dict values becomes a single
column whose pandas name is the integer `0`, rendered `"0"` by the `str(col)`
of the sanitization step. -/
def pdDataFrameList (xs : List JValue) : Frame :=
  if xs.all isObjVal then
    let objs := xs.map objFields
    let cols := unionKeys objs
    ⟨cols, objs.map (objRow cols)⟩
  else
    ⟨[['0']], xs.map fun x => [jToPy x]⟩

/-- Source lines 285-298: convert parsed JSON to a frame.  A list is handed
to `pd.DataFrame` directly; a single-key dict whose value is a list uses
that list as the rows, a single-key dict with a non-list value wraps the
value as one row, any other dict is wrapped as one row; anything else raises
`ValueError("Unsupported JSON structure")`. -/
def jsonToDF : JValue → Except IngestErr Frame
  | .jarr xs => .ok (pdDataFrameList xs)
  | .jobj [(_, .jarr xs)] => .ok (pdDataFrameList xs)
  | .jobj [(_, w)] => .ok (pdDataFrameList [w])
  | .jobj fields => .ok (pdDataFrameList [.jobj fields])
  | _ => .error .unsupportedJSONShape

/-- Source lines 303-380 after the frame is built: `df.empty` check (a pandas
frame is empty when either axis has length zero), truthiness-guarded
sampling with the literal seed 42, column sanitization, and the final table.
`ambient` is the surrounding process RNG state, which the source never lets
the sample depend on. -/
def ingestFromDF (ambient : Nat) (df : Frame) (tableName : List Char)
    (sampleSize : Option Nat) : Except IngestErr Table :=
  if df.rows.isEmpty || df.cols.isEmpty then
    .error .emptySource
  else
    let rows :=
      match sampleSize with
      | Option.none => df.rows
      | some n =>
        if n ≠ 0 ∧ n < df.rows.length then pdSample (some 42) ambient n df.rows
        else df.rows
    .ok ⟨tableName, sanitizeColumns df.cols, rows⟩

/-- The JSON arm of `create_sqlite_from_uploaded_file`: parse-result to
frame, then the shared frame pipeline. -/
def ingestJSON (ambient : Nat) (v : JValue) (tableName : List Char)
    (sampleSize : Option Nat) : Except IngestErr Table :=
  match jsonToDF v with
  | .error e => .error e
  | .ok df => ingestFromDF ambient df tableName sampleSize

/-! ## Type inference (`generate_create_table_sql`, lines 127-149) -/

/-- The pandas dtypes the source discriminates on. -/
inductive Dtype where
  | int64 : Dtype
  | float64 : Dtype
  | boolDt : Dtype
  | datetime : Dtype
  | object : Dtype
  deriving DecidableEq

/-- The SQLite column types the source emits. -/
inductive SqlTy where
  | integer : SqlTy
  | real : SqlTy
  | text : SqlTy
  | date : SqlTy
  deriving DecidableEq

/-- Is the cell a missing value (`pd.isna`)? -/
def pdIsna : PyVal → Bool
  | PyVal.none => true
  | _ => false

/-- Is the cell a Python `bool`? -/
def isBoolVal : PyVal → Bool
  | .bool _ => true
  | _ => false

/-- Is the cell a Python `int` (excluding `bool`, for dtype purposes)? -/
def isIntVal : PyVal → Bool
  | .int _ => true
  | _ => false

/-- Is the cell a Python `float`? -/
def isFloatVal : PyVal → Bool
  | .float _ => true
  | _ => false

/-- Is the cell a Python `str`? -/
def isStrVal : PyVal → Bool
  | .str _ => true
  | _ => false

/-- Models pandas Series dtype inference from a list of Python values:
an all-`None` (or empty) column is `object`; any string makes it `object`;
all-`bool` is `bool`; all-`int` is `int64`; any remaining mix of ints,
floats and `None` is `float64` (a `None` among numbers becomes NaN, which is
why an integer column with a missing value widens to `float64`); everything
else (bools mixed with numbers, nested containers) is `object`. -/
def seriesDtype (vs : List PyVal) : Dtype :=
  if vs.all pdIsna then .object
  else if vs.any isStrVal then .object
  else if vs.all isBoolVal then .boolDt
  else if vs.all isIntVal then .int64
  else if vs.all (fun v => pdIsna v || isIntVal v || isFloatVal v) then .float64
  else .object

/-- Source lines 135-144: map the column dtype to a SQLite type. -/
def sqlTypeOfDtype : Dtype → SqlTy
  | .int64 => .integer
  | .float64 => .real
  | .boolDt => .integer
  | .datetime => .date
  | .object => .text

/-- Per-column type inference: pandas dtype inference followed by the
source's dtype-to-SQL mapping. -/
def inferColType (vs : List PyVal) : SqlTy :=
  sqlTypeOfDtype (seriesDtype vs)

/-! ## Insert-value rendering (`generate_insert_sql`, lines 152-175) -/

/-- `isinstance(value, str)`. -/
def isinstanceStr : PyVal → Bool
  | .str _ => true
  | _ => false

/-- `isinstance(value, (int, float))`: in Python, `bool` is a subclass of
`int`, so boolean values satisfy this check as well. -/
def isinstanceIntFloat : PyVal → Bool
  | .int _ => true
  | .float _ => true
  | .bool _ => true
  | _ => false

/-- `isinstance(value, bool)`. -/
def isinstanceBool : PyVal → Bool
  | .bool _ => true
  | _ => false

/-- Decimal rendering of an integer, as Python's `str` renders it. -/
def intRepr (n : Int) : List Char :=
  if n < 0 then '-' :: natRepr n.natAbs else natRepr n.natAbs

/-- Python `str(value)`.  Booleans render as `True`/`False`; ints in
decimal.  Floats and containers are given definite stand-in renderings (no
claim inspects them). -/
def pyStr : PyVal → List Char
  | PyVal.none => ['N', 'o', 'n', 'e']
  | .bool true => ['T', 'r', 'u', 'e']
  | .bool false => ['F', 'a', 'l', 's', 'e']
  | .int n => intRepr n
  | .float q => intRepr q.num ++ '/' :: natRepr q.den
  | .str s => s
  | .nested _ => ['<', 'o', 'b', 'j', '>']

/-- Underlying string of a string cell (empty otherwise). -/
def strOf : PyVal → List Char
  | .str s => s
  | _ => []

/-- Underlying boolean of a bool cell (false otherwise). -/
def boolOf : PyVal → Bool
  | .bool b => b
  | _ => false

/-- Escape single quotes by doubling them (`value.replace("'", "''")`). -/
def escapeQuotes (s : List Char) : List Char :=
  s.flatMap fun c => if c = '\'' then ['\'', '\''] else [c]

/-- Source lines 160-173: render one cell for an INSERT statement.  The
cascade is the source's: `pd.isna` first, then `str`, then `(int, float)`,
then `bool`, then the catch-all. -/
def renderValue (v : PyVal) : List Char :=
  if pdIsna v then ['N', 'U', 'L', 'L']
  else if isinstanceStr v then '\'' :: escapeQuotes (strOf v) ++ ['\'']
  else if isinstanceIntFloat v then pyStr v
  else if isinstanceBool v then (if boolOf v then ['1'] else ['0'])
  else '\'' :: escapeQuotes (pyStr v) ++ ['\'']

/-! ## `get_file_info` (lines 390-460) -/

/-- An uploaded source as the pipeline observes it: a file name, the outcome
of the external CSV parser on its bytes, the outcome of `json.loads` on its
bytes, and a byte size.  The parse outcomes are fields because the parsers
themselves are external libraries. -/
structure SourceFile where
  name : List Char
  csvResult : Except (List Char) Frame
  jsonResult : Except (List Char) JValue
  size : Nat

/-- What one call to `get_file_info` can produce: a normal info record (the
dict with type, row and column counts, column names and size), or the dict
built in the `except` branch.  The function's result overall is an
`Option FileInfoOut` because the source can also fall off the end of the
`try` block and return Python `None`. -/
inductive FileInfoOut where
  | info (ftype : List Char) (rowCount colCount : Nat)
      (colNames : List (List Char)) (sizeBytes : Nat) : FileInfoOut
  | errorDict (msg : List Char) : FileInfoOut
  deriving DecidableEq

/-- `uploaded_file.name.endswith('.csv')`. -/
def endsWithCsv (name : List Char) : Bool :=
  List.isSuffixOf ['.', 'c', 's', 'v'] name

/-- `uploaded_file.name.endswith('.json')`. -/
def endsWithJson (name : List Char) : Bool :=
  List.isSuffixOf ['.', 'j', 's', 'o', 'n'] name

/-- Source lines 390-460.  The `.csv` branch returns the info dict, or the
`except`-branch dict when the parser raised.  The `.json` branch does the
same; its dict-shape dispatch has no arm for scalar JSON, in which case the
local `df` is never bound and the `except` branch catches the resulting
`UnboundLocalError`.  When the name matches neither extension the `try`
block completes without returning, so the function returns Python `None` —
modelled as `Option.none`. -/
def getFileInfo (f : SourceFile) : Option FileInfoOut :=
  if endsWithCsv f.name then
    match f.csvResult with
    | .ok df => some (.info ['C', 'S', 'V'] df.rows.length df.cols.length df.cols f.size)
    | .error e => some (.errorDict e)
  else if endsWithJson f.name then
    match f.jsonResult with
    | .error e => some (.errorDict e)
    | .ok v =>
      match jsonToDF v with
      | .ok df => some (.info ['J', 'S', 'O', 'N'] df.rows.length df.cols.length df.cols f.size)
      | .error _ =>
        some (.errorDict ['d', 'f', ' ', 'u', 'n', 'b', 'o', 'u', 'n', 'd'])
  else
    Option.none

/-- Does the (optional) result carry the `except`-branch dict? -/
def isErrorInfo : Option FileInfoOut → Bool
  | some (.errorDict _) => true
  | _ => false

/-- Does the (optional) result carry a normal info record? -/
def isNormalInfo : Option FileInfoOut → Bool
  | some (.info _ _ _ _ _) => true
  | _ => false

/-! ## Predicates written from the claims, for refinement comparison -/

/-- Written from claim C8's words, not from the source: is the parsed value
an array of objects? -/
def isArrayOfObjects : JValue → Bool
  | .jarr xs => xs.all isObjVal
  | _ => false

/-- Written from claim C8's words, not from the source: a single-key object
whose value is an array of objects. -/
def isSingleKeyArrayOfObjects : JValue → Bool
  | .jobj [(_, .jarr xs)] => xs.all isObjVal
  | _ => false

/-- Written from claim C8's words, not from the source: the shapes the claim
says are accepted (array of objects, single-key object holding an array of
objects, or a bare object). -/
def claimAccepts (v : JValue) : Bool :=
  isArrayOfObjects v || isSingleKeyArrayOfObjects v || isObjVal v

/-- Is the parsed JSON a scalar (neither an array nor an object)?  This is
exactly the condition under which the source raises
`ValueError("Unsupported JSON structure")`. -/
def jIsScalar : JValue → Bool
  | .jarr _ => false
  | .jobj _ => false
  | _ => true

/-- Successful outcome test for `Except`. -/
def exceptIsOk {ε α : Type} : Except ε α → Bool
  | .ok _ => true
  | .error _ => false

/-! ## Concrete inputs used by witnesses and counterexamples -/

/-- A two-row, one-column frame. -/
def exFrame : Frame :=
  ⟨[['a']], [[PyVal.int 1], [PyVal.int 2]]⟩

/-- A one-row, one-column frame. -/
def exFrameOne : Frame :=
  ⟨[['a']], [[PyVal.int 1]]⟩

/-- A frame with a column but no rows. -/
def exFrameEmpty : Frame :=
  ⟨[['a']], []⟩

/-- An uploaded file whose name ends in `.txt`: neither recognized
extension. -/
def exTxtFile : SourceFile :=
  ⟨['d', 'a', 't', 'a', '.', 't', 'x', 't'],
   .error ['u', 'n', 'u', 's', 'e', 'd'], .error ['u', 'n', 'u', 's', 'e', 'd'], 10⟩

/-- An uploaded file whose name ends in `.db`. -/
def exDbFile : SourceFile :=
  ⟨['d', 'a', 't', 'a', '.', 'd', 'b'],
   .error ['u', 'n', 'u', 's', 'e', 'd'], .error ['u', 'n', 'u', 's', 'e', 'd'], 7⟩

/-- The parsed JSON array `[1, 2, 3]`: an array whose elements are not
objects. -/
def exScalarArray : JValue :=
  .jarr [.jint 1, .jint 2, .jint 3]

/-- Python's `sample_size or original_row_count`: `None` and `0` are falsy
and fall through to the row count. -/
def pyOr (ss : Option Nat) (d : Nat) : Nat :=
  match ss with
  | Option.none => d
  | some n => if n = 0 then d else n

/-! ## Decimal representation lemmas -/

theorem natReprAux_zero (fuel : Nat) : natReprAux fuel 0 = [] := by
  cases fuel <;> rfl

theorem decVal_append (a : List Char) (c : Char) :
    decVal (a ++ [c]) = decVal a * 10 + charVal c := by
  simp [decVal, List.foldl_append]

theorem charVal_digitChar : ∀ d, d < 10 → charVal (Nat.digitChar d) = d := by
  decide

theorem natReprAux_val : ∀ fuel n, n ≤ fuel → decVal (natReprAux fuel n) = n := by
  intro fuel
  induction fuel with
  | zero =>
    intro n hn
    interval_cases n
    rfl
  | succ f ih =>
    intro n hn
    match n with
    | 0 => rw [natReprAux_zero]; rfl
    | m + 1 =>
      have hdiv : (m + 1) / 10 ≤ f := by
        have h1 : (m + 1) / 10 < m + 1 := Nat.div_lt_self (Nat.succ_pos m) (by omega)
        omega
      rw [show natReprAux (f + 1) (m + 1)
            = natReprAux f ((m + 1) / 10) ++ [Nat.digitChar ((m + 1) % 10)] from rfl,
          decVal_append, ih _ hdiv, charVal_digitChar _ (Nat.mod_lt _ (by omega))]
      omega

theorem natRepr_val (n : Nat) : decVal (natRepr n) = n := by
  by_cases h : n = 0
  · subst h; rfl
  · rw [natRepr, if_neg h]
    exact natReprAux_val n n le_rfl

theorem natRepr_injective : Function.Injective natRepr := by
  intro a b h
  have := congrArg decVal h
  rwa [natRepr_val, natRepr_val] at this

theorem suffixName_injective (col : List Char) :
    ∀ k₁ k₂, suffixName col k₁ = suffixName col k₂ → k₁ = k₂ := by
  intro k₁ k₂ h
  unfold suffixName at h
  have h2 := List.append_cancel_left h
  exact natRepr_injective (List.cons_injective h2)

theorem natReprAux_chars :
    ∀ fuel n c, c ∈ natReprAux fuel n → ∃ d, d < 10 ∧ c = Nat.digitChar d := by
  intro fuel
  induction fuel with
  | zero => intro n c h; simp [natReprAux] at h
  | succ f ih =>
    intro n c h
    match n with
    | 0 => rw [natReprAux_zero] at h; simp at h
    | m + 1 =>
      rw [show natReprAux (f + 1) (m + 1)
            = natReprAux f ((m + 1) / 10) ++ [Nat.digitChar ((m + 1) % 10)] from rfl] at h
      rcases List.mem_append.mp h with h' | h'
      · exact ih _ c h'
      · exact ⟨(m + 1) % 10, Nat.mod_lt _ (by omega), by simpa using h'⟩

theorem natRepr_chars (n : Nat) (c : Char) (h : c ∈ natRepr n) :
    ∃ d, d < 10 ∧ c = Nat.digitChar d := by
  by_cases hn : n = 0
  · subst hn
    simp [natRepr] at h
    exact ⟨0, by omega, by simp [h]; rfl⟩
  · rw [natRepr, if_neg hn] at h
    exact natReprAux_chars n n c h

theorem digitChar_tame :
    ∀ d, d < 10 → Nat.digitChar d ∉ blocklist ∧ Nat.digitChar d ≠ '_' := by
  decide

theorem natRepr_ne_nil (n : Nat) : natRepr n ≠ [] := by
  by_cases hn : n = 0
  · subst hn; simp [natRepr]
  · rw [natRepr, if_neg hn]
    match n, hn with
    | m + 1, _ =>
      rw [show natReprAux (m + 1) (m + 1)
            = natReprAux m ((m + 1) / 10) ++ [Nat.digitChar ((m + 1) % 10)] from rfl]
      simp

theorem natRepr_sep_free (n : Nat) : '_' ∉ natRepr n := by
  intro h
  obtain ⟨d, hd, hc⟩ := natRepr_chars n '_' h
  exact (digitChar_tame d hd).2 hc.symm

theorem natRepr_noBlock (n : Nat) : ∀ c ∈ natRepr n, c ∉ blocklist := by
  intro c hc
  obtain ⟨d, hd, rfl⟩ := natRepr_chars n c hc
  exact (digitChar_tame d hd).1

/-! ## Split/join lemmas -/

theorem pySplit_ne_nil (sep : Char) : ∀ l, pySplit sep l ≠ [] := by
  intro l
  induction l with
  | nil => simp [pySplit]
  | cons c cs ih =>
    by_cases hc : c = sep
    · simp [pySplit, hc]
    · rw [pySplit, if_neg hc]
      cases h : pySplit sep cs with
      | nil => exact absurd h ih
      | cons p ps => simp [consHead]

theorem pySplit_mem (sep : Char) :
    ∀ l p, p ∈ pySplit sep l → sep ∉ p ∧ ∀ c ∈ p, c ∈ l := by
  intro l
  induction l with
  | nil =>
    intro p hp
    simp [pySplit] at hp
    subst hp
    simp
  | cons c cs ih =>
    intro p hp
    by_cases hc : c = sep
    · rw [pySplit, if_pos hc] at hp
      rcases List.mem_cons.mp hp with rfl | h'
      · simp
      · obtain ⟨h1, h2⟩ := ih p h'
        exact ⟨h1, fun x hx => List.mem_cons_of_mem c (h2 x hx)⟩
    · rw [pySplit, if_neg hc] at hp
      cases hsplit : pySplit sep cs with
      | nil => exact absurd hsplit (pySplit_ne_nil sep cs)
      | cons q qs =>
        rw [hsplit] at hp
        simp only [consHead] at hp
        rcases List.mem_cons.mp hp with rfl | h'
        · obtain ⟨h1, h2⟩ := ih q (hsplit ▸ List.mem_cons_self q qs)
          refine ⟨?_, ?_⟩
          · intro hmem
            rcases List.mem_cons.mp hmem with h | h
            · exact hc h.symm
            · exact h1 h
          · intro x hx
            rcases List.mem_cons.mp hx with rfl | h
            · exact List.mem_cons_self x cs
            · exact List.mem_cons_of_mem c (h2 x h)
        · obtain ⟨h1, h2⟩ := ih p (hsplit ▸ List.mem_cons_of_mem q h')
          exact ⟨h1, fun x hx => List.mem_cons_of_mem c (h2 x hx)⟩

theorem pySplit_cons (sep c : Char) (cs : List Char) :
    pySplit sep (c :: cs)
      = if c = sep then [] :: pySplit sep cs else consHead c (pySplit sep cs) := rfl

theorem pySplit_append_sep (sep : Char) :
    ∀ a b, pySplit sep (a ++ sep :: b) = pySplit sep a ++ pySplit sep b := by
  intro a b
  induction a with
  | nil => rw [List.nil_append, pySplit_cons, if_pos rfl]; rfl
  | cons c a' ih =>
    rw [List.cons_append, pySplit_cons, pySplit_cons, ih]
    by_cases hc : c = sep
    · rw [if_pos hc, if_pos hc]; rfl
    · rw [if_neg hc, if_neg hc]
      cases h : pySplit sep a' with
      | nil => exact absurd h (pySplit_ne_nil sep a')
      | cons q qs => rfl

theorem pySplit_sep_free (sep : Char) :
    ∀ l, sep ∉ l → pySplit sep l = [l] := by
  intro l
  induction l with
  | nil => intro _; rfl
  | cons c cs ih =>
    intro h
    have hc : c ≠ sep := fun e => h (e ▸ List.mem_cons_self c cs)
    rw [pySplit, if_neg hc, ih (fun e => h (List.mem_cons_of_mem c e))]
    rfl

theorem joinSep_mem (sep : Char) :
    ∀ L c, c ∈ joinSep sep L → c = sep ∨ ∃ p ∈ L, c ∈ p := by
  intro L
  induction L with
  | nil => intro c hc; simp [joinSep] at hc
  | cons p ps ih =>
    intro c hc
    cases ps with
    | nil => exact Or.inr ⟨p, List.mem_cons_self p [], hc⟩
    | cons q qs =>
      rw [show joinSep sep (p :: q :: qs) = p ++ sep :: joinSep sep (q :: qs) from rfl] at hc
      rcases List.mem_append.mp hc with h | h
      · exact Or.inr ⟨p, List.mem_cons_self p _, h⟩
      · rcases List.mem_cons.mp h with rfl | h'
        · exact Or.inl rfl
        · rcases ih c h' with h'' | ⟨r, hr, hcr⟩
          · exact Or.inl h''
          · exact Or.inr ⟨r, List.mem_cons_of_mem p hr, hcr⟩

theorem joinSep_append_single (sep : Char) :
    ∀ L d, L ≠ [] → joinSep sep (L ++ [d]) = joinSep sep L ++ sep :: d := by
  intro L
  induction L with
  | nil => intro d h; exact absurd rfl h
  | cons p ps ih =>
    intro d _
    cases ps with
    | nil => rfl
    | cons q qs =>
      rw [show (p :: q :: qs) ++ [d] = p :: ((q :: qs) ++ [d]) from rfl]
      rw [show joinSep sep (p :: (q :: qs ++ [d]))
            = p ++ sep :: joinSep sep (q :: qs ++ [d]) from rfl]
      rw [ih d (by simp)]
      rw [show joinSep sep (p :: q :: qs) = p ++ sep :: joinSep sep (q :: qs) from rfl]
      simp

theorem pySplit_joinSep (sep : Char) :
    ∀ L, L ≠ [] → (∀ p ∈ L, sep ∉ p) → pySplit sep (joinSep sep L) = L := by
  intro L
  induction L with
  | nil => intro h; exact absurd rfl h
  | cons p ps ih =>
    intro _ hfree
    cases ps with
    | nil =>
      rw [show joinSep sep [p] = p from rfl]
      exact pySplit_sep_free sep p (hfree p (List.mem_cons_self p []))
    | cons q qs =>
      rw [show joinSep sep (p :: q :: qs) = p ++ sep :: joinSep sep (q :: qs) from rfl,
          pySplit_append_sep,
          pySplit_sep_free sep p (hfree p (List.mem_cons_self p _)),
          ih (by simp) (fun r hr => hfree r (List.mem_cons_of_mem p hr))]
      rfl

/-! ## Collapse lemmas -/

theorem collapseName_frag (s p : List Char)
    (h : p ∈ (pySplit '_' s).filter fun q => !q.isEmpty) :
    p ≠ [] ∧ '_' ∉ p ∧ ∀ c ∈ p, c ∈ s := by
  obtain ⟨hmem, hne⟩ := List.mem_filter.mp h
  obtain ⟨h1, h2⟩ := pySplit_mem '_' s p hmem
  refine ⟨?_, h1, h2⟩
  simpa using hne

theorem collapseName_nil : collapseName [] = [] := rfl

theorem collapseName_idem (s : List Char) :
    collapseName (collapseName s) = collapseName s := by
  by_cases hF : (pySplit '_' s).filter (fun q => !q.isEmpty) = []
  · have h0 : collapseName s = [] := by rw [collapseName, hF]; rfl
    rw [h0]
    rfl
  · rw [show collapseName s
        = joinSep '_' ((pySplit '_' s).filter fun q => !q.isEmpty) from rfl]
    rw [collapseName,
        pySplit_joinSep '_' _ hF (fun p hp => (collapseName_frag s p hp).2.1),
        List.filter_eq_self.mpr
          (fun p hp => by simpa using (collapseName_frag s p hp).1)]

theorem collapseName_chars (s : List Char) :
    ∀ c ∈ collapseName s, c = '_' ∨ c ∈ s := by
  intro c hc
  rcases joinSep_mem '_' _ c hc with h | ⟨p, hp, hcp⟩
  · exact Or.inl h
  · exact Or.inr ((collapseName_frag s p hp).2.2 c hcp)

theorem collapseName_append_suffix (s d : List Char)
    (hcol : collapseName s = s) (hs : s ≠ []) (hd : d ≠ []) (hdfree : '_' ∉ d) :
    collapseName (s ++ '_' :: d) = s ++ '_' :: d := by
  have hF : (pySplit '_' s).filter (fun q => !q.isEmpty) ≠ [] := by
    intro h
    rw [collapseName, h] at hcol
    exact hs hcol.symm
  have hjoin : joinSep '_' ((pySplit '_' s).filter fun q => !q.isEmpty) = s := hcol
  rw [collapseName, pySplit_append_sep, pySplit_sep_free '_' d hdfree,
      List.filter_append]
  rw [show List.filter (fun q => !q.isEmpty) [d] = [d] by simp [hd]]
  rw [joinSep_append_single '_' _ d hF, hjoin]

/-! ## Blocklist replacement lemmas -/

theorem cleanName_eq_map (s : List Char) :
    cleanName s = s.map fun c => if c ∈ blocklist then '_' else c := by
  unfold cleanName pyReplace
  simp only [List.map_map]
  refine List.map_congr_left fun c _ => ?_
  by_cases h : c ∈ blocklist
  · simp only [blocklist, List.mem_cons, List.not_mem_nil, or_false] at h
    rcases h with rfl | rfl | rfl | rfl | rfl | rfl | rfl | rfl | rfl | rfl | rfl | rfl | rfl |
      rfl | rfl | rfl | rfl | rfl | rfl | rfl | rfl | rfl | rfl | rfl | rfl | rfl <;> rfl
  · rw [if_neg h]
    simp only [blocklist, List.mem_cons, List.not_mem_nil, or_false] at h
    push_neg at h
    obtain ⟨h1, h2, h3, h4, h5, h6, h7, h8, h9, h10, h11, h12, h13, h14, h15, h16, h17, h18,
      h19, h20, h21, h22, h23, h24, h25, h26⟩ := h
    simp [h1, h2, h3, h4, h5, h6, h7, h8, h9, h10, h11, h12, h13, h14, h15, h16, h17, h18,
      h19, h20, h21, h22, h23, h24, h25, h26]

theorem cleanName_noBlock (s : List Char) : ∀ c ∈ cleanName s, c ∉ blocklist := by
  intro c hc
  rw [cleanName_eq_map] at hc
  obtain ⟨c', _, hc'⟩ := List.mem_map.mp hc
  by_cases h : c' ∈ blocklist
  · rw [if_pos h] at hc'
    rw [← hc']
    decide
  · rw [if_neg h] at hc'
    exact hc' ▸ h

theorem cleanName_fix (s : List Char) (h : ∀ c ∈ s, c ∉ blocklist) :
    cleanName s = s := by
  rw [cleanName_eq_map]
  conv_rhs => rw [← List.map_id s]
  exact List.map_congr_left fun c hc => if_neg (h c hc)

/-! ## Placeholder lemmas -/

theorem placeholderPass_cons (i : Nat) (c : List Char) (cs : List (List Char)) :
    placeholderPass i (c :: cs)
      = (if c = [] then pname i else c) :: placeholderPass (i + 1) cs := rfl

theorem placeholderPass_mem :
    ∀ l i y, y ∈ placeholderPass i l → (∃ j, y = pname j) ∨ (y ∈ l ∧ y ≠ []) := by
  intro l
  induction l with
  | nil => intro i y h; simp [placeholderPass] at h
  | cons c cs ih =>
    intro i y h
    rw [placeholderPass_cons] at h
    rcases List.mem_cons.mp h with h' | h'
    · by_cases hc : c = []
      · rw [if_pos hc] at h'
        exact Or.inl ⟨i, h'⟩
      · rw [if_neg hc] at h'
        exact Or.inr ⟨h' ▸ List.mem_cons_self c cs, h' ▸ hc⟩
    · rcases ih (i + 1) y h' with h'' | ⟨hm, hne⟩
      · exact Or.inl h''
      · exact Or.inr ⟨List.mem_cons_of_mem c hm, hne⟩

theorem placeholderPass_id :
    ∀ l i, (∀ x ∈ l, x ≠ []) → placeholderPass i l = l := by
  intro l
  induction l with
  | nil => intro i _; rfl
  | cons c cs ih =>
    intro i h
    rw [placeholderPass_cons, if_neg (h c (List.mem_cons_self c cs)),
        ih (i + 1) (fun x hx => h x (List.mem_cons_of_mem c hx))]

theorem pname_ne_nil (i : Nat) : pname i ≠ [] := by
  simp [pname]

theorem pname_noBlock (i : Nat) : ∀ c ∈ pname i, c ∉ blocklist := by
  intro c hc
  rw [pname] at hc
  rcases List.mem_append.mp hc with h | h
  · fin_cases h <;> decide
  · rcases List.mem_cons.mp h with rfl | h'
    · decide
    · exact natRepr_noBlock i c h'

theorem pname_collapsed (i : Nat) : collapseName (pname i) = pname i := by
  rw [pname]
  exact collapseName_append_suffix _ _ (by decide) (by decide)
    (natRepr_ne_nil i) (natRepr_sep_free i)

/-! ## Suffix-name lemmas -/

theorem suffixName_ne_nil (col : List Char) (k : Nat) : suffixName col k ≠ [] := by
  simp [suffixName]

theorem suffixName_noBlock (col : List Char) (k : Nat)
    (h : ∀ c ∈ col, c ∉ blocklist) : ∀ c ∈ suffixName col k, c ∉ blocklist := by
  intro c hc
  rcases List.mem_append.mp hc with h' | h'
  · exact h c h'
  · rcases List.mem_cons.mp h' with rfl | h''
    · decide
    · exact natRepr_noBlock k c h''

theorem suffixName_collapsed (col : List Char) (k : Nat)
    (h1 : col ≠ []) (h3 : collapseName col = col) :
    collapseName (suffixName col k) = suffixName col k :=
  collapseName_append_suffix col (natRepr k) h3 h1 (natRepr_ne_nil k) (natRepr_sep_free k)

/-! ## Fresh-counter lemmas -/

theorem findCounter_zero (col : List Char) (seen : List (List Char)) (k : Nat) :
    findCounter col seen 0 k = k := rfl

theorem findCounter_succ (col : List Char) (seen : List (List Char)) (f k : Nat) :
    findCounter col seen (f + 1) k
      = if suffixName col k ∈ seen then findCounter col seen f (k + 1) else k := rfl

theorem findCounter_ge (col : List Char) (seen : List (List Char)) :
    ∀ fuel k, k ≤ findCounter col seen fuel k := by
  intro fuel
  induction fuel with
  | zero => intro k; rw [findCounter_zero]
  | succ f ih =>
    intro k
    rw [findCounter_succ]
    by_cases h : suffixName col k ∈ seen
    · rw [if_pos h]
      exact le_trans (Nat.le_succ k) (ih (k + 1))
    · rw [if_neg h]

theorem findCounter_spec (col : List Char) (seen : List (List Char)) :
    ∀ fuel k, (∃ j, j < fuel ∧ suffixName col (k + j) ∉ seen) →
      suffixName col (findCounter col seen fuel k) ∉ seen ∧
        ∀ j, k ≤ j → j < findCounter col seen fuel k → suffixName col j ∈ seen := by
  intro fuel
  induction fuel with
  | zero =>
    intro k h
    obtain ⟨j, hj, _⟩ := h
    omega
  | succ f ih =>
    intro k h
    obtain ⟨j, hj, hfree⟩ := h
    rw [findCounter_succ]
    by_cases hmem : suffixName col k ∈ seen
    · rw [if_pos hmem]
      have hj0 : j ≠ 0 := by
        rintro rfl
        rw [Nat.add_zero] at hfree
        exact hfree hmem
      obtain ⟨hA, hB⟩ := ih (k + 1)
        ⟨j - 1, by omega, by rw [show k + 1 + (j - 1) = k + j by omega]; exact hfree⟩
      refine ⟨hA, fun j' hle hlt => ?_⟩
      rcases Nat.eq_or_lt_of_le hle with heq | h'
      · exact heq ▸ hmem
      · exact hB j' h' hlt
    · rw [if_neg hmem]
      exact ⟨hmem, fun j' hle hlt => by omega⟩

theorem exists_fresh (col : List Char) (seen : List (List Char)) :
    ∃ j, j < seen.length + 1 ∧ suffixName col (1 + j) ∉ seen := by
  by_contra hcon
  push_neg at hcon
  have hinj : Function.Injective fun j : Nat => suffixName col (1 + j) := by
    intro a b h
    have := suffixName_injective col _ _ h
    omega
  have hnodup :
      ((List.range (seen.length + 1)).map fun j => suffixName col (1 + j)).Nodup :=
    (List.nodup_range _).map hinj
  have hsub :
      ((List.range (seen.length + 1)).map fun j => suffixName col (1 + j)) ⊆ seen := by
    intro x hx
    obtain ⟨j, hj, hxe⟩ := List.mem_map.mp hx
    exact hxe ▸ hcon j (List.mem_range.mp hj)
  have hlen := (hnodup.subperm hsub).length_le
  simp at hlen

theorem freshIdx_pos (col : List Char) (seen : List (List Char)) :
    1 ≤ freshIdx col seen :=
  findCounter_ge col seen (seen.length + 1) 1

theorem freshIdx_spec (col : List Char) (seen : List (List Char)) :
    suffixName col (freshIdx col seen) ∉ seen ∧
      ∀ j, 1 ≤ j → j < freshIdx col seen → suffixName col j ∈ seen := by
  obtain ⟨j, hj, hfree⟩ := exists_fresh col seen
  exact findCounter_spec col seen (seen.length + 1) 1 ⟨j, hj, hfree⟩

/-! ## Uniqueness-pass lemmas -/

theorem makeUnique_nil (seen : List (List Char)) : makeUnique seen [] = [] := rfl

theorem makeUnique_cons (seen col : _) (rest : List (List Char)) :
    makeUnique seen (col :: rest)
      = if col ∈ seen then
          suffixName col (freshIdx col seen) ::
            makeUnique (suffixName col (freshIdx col seen) :: seen) rest
        else col :: makeUnique (col :: seen) rest := rfl

theorem makeUnique_sound :
    ∀ l seen, (∀ y ∈ makeUnique seen l, y ∉ seen) ∧ (makeUnique seen l).Nodup := by
  intro l
  induction l with
  | nil =>
    intro seen
    rw [makeUnique_nil]
    exact ⟨fun y hy => absurd hy (List.not_mem_nil y), List.nodup_nil⟩
  | cons col rest ih =>
    intro seen
    rw [makeUnique_cons]
    by_cases h : col ∈ seen
    · rw [if_pos h]
      have hfresh : suffixName col (freshIdx col seen) ∉ seen := (freshIdx_spec col seen).1
      obtain ⟨ih1, ih2⟩ := ih (suffixName col (freshIdx col seen) :: seen)
      refine ⟨fun y hy => ?_, List.nodup_cons.mpr ⟨fun hcon => ?_, ih2⟩⟩
      · rcases List.mem_cons.mp hy with rfl | hy'
        · exact hfresh
        · exact fun hcon => ih1 y hy' (List.mem_cons_of_mem _ hcon)
      · exact ih1 _ hcon (List.mem_cons_self _ seen)
    · rw [if_neg h]
      obtain ⟨ih1, ih2⟩ := ih (col :: seen)
      refine ⟨fun y hy => ?_, List.nodup_cons.mpr ⟨fun hcon => ?_, ih2⟩⟩
      · rcases List.mem_cons.mp hy with rfl | hy'
        · exact h
        · exact fun hcon => ih1 y hy' (List.mem_cons_of_mem _ hcon)
      · exact ih1 _ hcon (List.mem_cons_self _ seen)

theorem makeUnique_mem_src :
    ∀ l seen y, y ∈ makeUnique seen l →
      y ∈ l ∨ ∃ x ∈ l, ∃ k, y = suffixName x k := by
  intro l
  induction l with
  | nil => intro seen y hy; rw [makeUnique_nil] at hy; exact absurd hy (List.not_mem_nil y)
  | cons col rest ih =>
    intro seen y hy
    rw [makeUnique_cons] at hy
    by_cases h : col ∈ seen
    · rw [if_pos h] at hy
      rcases List.mem_cons.mp hy with rfl | hy'
      · exact Or.inr ⟨col, List.mem_cons_self col rest, freshIdx col seen, rfl⟩
      · rcases ih _ y hy' with h' | ⟨x, hx, k, hk⟩
        · exact Or.inl (List.mem_cons_of_mem col h')
        · exact Or.inr ⟨x, List.mem_cons_of_mem col hx, k, hk⟩
    · rw [if_neg h] at hy
      rcases List.mem_cons.mp hy with rfl | hy'
      · exact Or.inl (List.mem_cons_self y rest)
      · rcases ih _ y hy' with h' | ⟨x, hx, k, hk⟩
        · exact Or.inl (List.mem_cons_of_mem col h')
        · exact Or.inr ⟨x, List.mem_cons_of_mem col hx, k, hk⟩

theorem makeUnique_id :
    ∀ l seen, l.Nodup → (∀ x ∈ l, x ∉ seen) → makeUnique seen l = l := by
  intro l
  induction l with
  | nil => intro seen _ _; rfl
  | cons col rest ih =>
    intro seen hnd hout
    rw [makeUnique_cons, if_neg (hout col (List.mem_cons_self col rest))]
    congr 1
    refine ih (col :: seen) (List.nodup_cons.mp hnd).2 fun x hx hcon => ?_
    rcases List.mem_cons.mp hcon with rfl | h'
    · exact (List.nodup_cons.mp hnd).1 hx
    · exact hout x (List.mem_cons_of_mem col hx) h'

/-! ## Properties of the sanitized output -/

theorem sanitizeColumns_props (cols : List (List Char)) :
    ∀ y ∈ sanitizeColumns cols,
      y ≠ [] ∧ (∀ c ∈ y, c ∉ blocklist) ∧ collapseName y = y := by
  intro y hy
  have hstage : ∀ z ∈ placeholderPass 0 ((cols.map cleanName).map collapseName),
      z ≠ [] ∧ (∀ c ∈ z, c ∉ blocklist) ∧ collapseName z = z := by
    intro z hz
    rcases placeholderPass_mem _ 0 z hz with ⟨j, rfl⟩ | ⟨hmem, hne⟩
    · exact ⟨pname_ne_nil j, pname_noBlock j, pname_collapsed j⟩
    · obtain ⟨w, hw, rfl⟩ := List.mem_map.mp hmem
      obtain ⟨u, _, rfl⟩ := List.mem_map.mp hw
      refine ⟨hne, ?_, collapseName_idem (cleanName u)⟩
      intro c hc
      rcases collapseName_chars (cleanName u) c hc with rfl | h'
      · decide
      · exact cleanName_noBlock u c h'
  rcases makeUnique_mem_src _ [] y hy with h' | ⟨x, hx, k, rfl⟩
  · exact hstage y h'
  · obtain ⟨hx1, hx2, hx3⟩ := hstage x hx
    exact ⟨suffixName_ne_nil x k, suffixName_noBlock x k hx2,
      suffixName_collapsed x k hx1 hx3⟩

theorem sanitizeColumns_nodup (cols : List (List Char)) :
    (sanitizeColumns cols).Nodup :=
  (makeUnique_sound (placeholderPass 0 ((cols.map cleanName).map collapseName)) []).2

/-! ## Sampling length -/

theorem sampleRows_length {ρ : Type} :
    ∀ (n : Nat) (seed : Nat) (rows : List ρ),
      (sampleRows seed n rows).length = min n rows.length := by
  intro n
  induction n with
  | zero => intro seed rows; simp [sampleRows]
  | succ m ih =>
    intro seed rows
    cases rows with
    | nil => simp [sampleRows]
    | cons r rs =>
      rw [show sampleRows seed (m + 1) (r :: rs)
            = (r :: rs).get ⟨lcg seed % (r :: rs).length,
                Nat.mod_lt _ (Nat.succ_pos _)⟩ ::
              sampleRows (lcg seed) m
                ((r :: rs).eraseIdx (lcg seed % (r :: rs).length)) from rfl]
      rw [List.length_cons, ih]
      have hlt : lcg seed % (r :: rs).length < (r :: rs).length :=
        Nat.mod_lt _ (Nat.succ_pos _)
      have hlen := List.length_eraseIdx_add_one hlt
      simp only [List.length_cons] at hlen ⊢
      omega

/-! ## Ingestion lemmas -/

theorem ingestFromDF_eq (g : Nat) (df : Frame) (tn : List Char) (ss : Option Nat) :
    ingestFromDF g df tn ss
      = if df.rows.isEmpty || df.cols.isEmpty then Except.error IngestErr.emptySource
        else Except.ok ⟨tn, sanitizeColumns df.cols,
          match ss with
          | Option.none => df.rows
          | some n =>
            if n ≠ 0 ∧ n < df.rows.length then pdSample (some 42) g n df.rows
            else df.rows⟩ := rfl

theorem ingestFromDF_notEmpty (g : Nat) (df : Frame) (tn : List Char) (ss : Option Nat)
    (h1 : df.rows ≠ []) (h2 : df.cols ≠ []) :
    ingestFromDF g df tn ss
      = Except.ok ⟨tn, sanitizeColumns df.cols,
          match ss with
          | Option.none => df.rows
          | some n =>
            if n ≠ 0 ∧ n < df.rows.length then pdSample (some 42) g n df.rows
            else df.rows⟩ := by
  rw [ingestFromDF_eq, if_neg]
  simp [h1, h2]

theorem ingestFromDF_ambient_free (g₁ g₂ : Nat) (df : Frame) (tn : List Char)
    (ss : Option Nat) : ingestFromDF g₁ df tn ss = ingestFromDF g₂ df tn ss := rfl

theorem ingestFromDF_none (g : Nat) (df : Frame) (tn : List Char)
    (h1 : df.rows ≠ []) (h2 : df.cols ≠ []) :
    ingestFromDF g df tn Option.none
      = Except.ok ⟨tn, sanitizeColumns df.cols, df.rows⟩ := by
  rw [ingestFromDF_notEmpty g df tn Option.none h1 h2]

theorem ingestFromDF_some (g : Nat) (df : Frame) (tn : List Char) (n : Nat)
    (h1 : df.rows ≠ []) (h2 : df.cols ≠ []) :
    ingestFromDF g df tn (some n)
      = Except.ok ⟨tn, sanitizeColumns df.cols,
          if n ≠ 0 ∧ n < df.rows.length then sampleRows 42 n df.rows
          else df.rows⟩ := by
  rw [ingestFromDF_notEmpty g df tn (some n) h1 h2]
  rfl

theorem ingestJSON_eq (g : Nat) (v : JValue) (tn : List Char) (ss : Option Nat) :
    ingestJSON g v tn ss
      = match jsonToDF v with
        | .error e => .error e
        | .ok df => ingestFromDF g df tn ss := rfl

theorem ingestFromDF_ne_shape (g : Nat) (df : Frame) (tn : List Char)
    (ss : Option Nat) :
    ingestFromDF g df tn ss ≠ Except.error IngestErr.unsupportedJSONShape := by
  rw [ingestFromDF_eq]
  by_cases h : (df.rows.isEmpty || df.cols.isEmpty) = true
  · rw [if_pos h]; simp
  · rw [if_neg h]; simp

theorem jsonToDF_scalar (v : JValue) (h : jIsScalar v = true) :
    jsonToDF v = Except.error IngestErr.unsupportedJSONShape := by
  cases v <;> first | rfl | simp [jIsScalar] at h

theorem jsonToDF_ok (v : JValue) (h : jIsScalar v = false) :
    ∃ df, jsonToDF v = Except.ok df := by
  cases v with
  | jarr xs => exact ⟨_, rfl⟩
  | jobj fields =>
    rcases fields with _ | ⟨⟨k, w⟩, rest⟩
    · exact ⟨_, rfl⟩
    · rcases rest with _ | ⟨r, rs⟩
      · cases w <;> exact ⟨_, rfl⟩
      · cases w <;> exact ⟨_, rfl⟩
  | jnull => simp [jIsScalar] at h
  | jbool b => simp [jIsScalar] at h
  | jint n => simp [jIsScalar] at h
  | jfloat q => simp [jIsScalar] at h
  | jstr s => simp [jIsScalar] at h

/-! ## Dtype helper lemmas -/

theorem isIntVal_facts (v : PyVal) (h : isIntVal v = true) :
    pdIsna v = false ∧ isStrVal v = false ∧ isBoolVal v = false ∧ isFloatVal v = false := by
  cases v <;> simp_all [isIntVal, pdIsna, isStrVal, isBoolVal, isFloatVal]

theorem isFloatVal_facts (v : PyVal) (h : isFloatVal v = true) :
    pdIsna v = false ∧ isStrVal v = false ∧ isBoolVal v = false ∧ isIntVal v = false := by
  cases v <;> simp_all [isIntVal, pdIsna, isStrVal, isBoolVal, isFloatVal]

theorem numericOrNull_facts (v : PyVal)
    (h : (pdIsna v || isIntVal v || isFloatVal v) = true) :
    isStrVal v = false ∧ isBoolVal v = false := by
  cases v <;> simp_all [isIntVal, pdIsna, isStrVal, isBoolVal, isFloatVal]

theorem pdIsna_int_false (v : PyVal) (h : pdIsna v = true) : isIntVal v = false := by
  cases v <;> simp_all [isIntVal, pdIsna]

theorem seriesDtype_def (vs : List PyVal) :
    seriesDtype vs
      = if vs.all pdIsna then Dtype.object
        else if vs.any isStrVal then Dtype.object
        else if vs.all isBoolVal then Dtype.boolDt
        else if vs.all isIntVal then Dtype.int64
        else if vs.all (fun v => pdIsna v || isIntVal v || isFloatVal v) then Dtype.float64
        else Dtype.object := rfl

/-! ## Claim theorems -/

/-- Claim C1: two ingest runs on identical parsed sources, table name and
sample size produce identical tables — in particular identical sampled row
sets.  The ambient RNG states `g₁, g₂` model whatever process-wide random
state the interpreter carries; the result is independent of it because the
source passes the literal seed `42` to every `DataFrame.sample` call, so the
draw is a pure function of the parsed rows and the sample size. -/
theorem claim_C1 :
    (∀ g₁ g₂ (df : Frame) (tn : List Char) (ss : Option Nat),
        ingestFromDF g₁ df tn ss = ingestFromDF g₂ df tn ss) ∧
    (∀ g₁ g₂ (v : JValue) (tn : List Char) (ss : Option Nat),
        ingestJSON g₁ v tn ss = ingestJSON g₂ v tn ss) := by
  refine ⟨fun g₁ g₂ df tn ss => rfl, fun g₁ g₂ v tn ss => ?_⟩
  rw [ingestJSON_eq, ingestJSON_eq]
  cases h : jsonToDF v with
  | error e => rfl
  | ok df => exact ingestFromDF_ambient_free g₁ g₂ df tn ss

/-- Claim C2: sanitization replaces exactly the blocklist characters by
underscores (first conjunct), collapses and strips underscores by rejoining
the non-empty underscore-split fragments (second conjunct, the source's own
formulation), substitutes `column_<zero-based-index>` for an empty result
(third conjunct), sends the header `"2023 Q1 (Revenue)"` to
`2023_Q1_Revenue` (fourth conjunct), and is applied to the column names of
every ingested frame regardless of the source format, since delimited-text
and JSON ingestion share the single frame pipeline (fifth conjunct). -/
theorem claim_C2 :
    (∀ s, cleanName s = s.map fun c => if c ∈ blocklist then '_' else c) ∧
    (∀ s, collapseName s
        = joinSep '_' ((pySplit '_' s).filter fun p => !p.isEmpty)) ∧
    (∀ i rest, placeholderPass i ([] :: rest)
        = pname i :: placeholderPass (i + 1) rest) ∧
    sanitizeColumns
        [['2', '0', '2', '3', ' ', 'Q', '1', ' ', '(', 'R', 'e', 'v', 'e', 'n', 'u', 'e', ')']]
      = [['2', '0', '2', '3', '_', 'Q', '1', '_', 'R', 'e', 'v', 'e', 'n', 'u', 'e']] ∧
    (∀ g df tn ss t, ingestFromDF g df tn ss = Except.ok t →
        t.cols = sanitizeColumns df.cols) := by
  refine ⟨cleanName_eq_map, fun s => rfl,
    fun i rest => by rw [placeholderPass_cons, if_pos rfl], by decide,
    fun g df tn ss t h => ?_⟩
  rw [ingestFromDF_eq] at h
  by_cases hcond : (df.rows.isEmpty || df.cols.isEmpty) = true
  · rw [if_pos hcond] at h
    exact absurd h (by simp)
  · rw [if_neg hcond] at h
    have ht := Except.ok.inj h
    rw [← ht]

/-- Witness for C2: the fifth conjunct applied to a concrete one-row frame. -/
theorem claim_C2_witness :
    Table.cols ⟨['t'], [['a']], [[PyVal.int 1]]⟩ = sanitizeColumns exFrameOne.cols :=
  claim_C2.2.2.2.2 0 exFrameOne ['t'] Option.none
    ⟨['t'], [['a']], [[PyVal.int 1]]⟩ rfl

/-- Claim C3: sanitized identifiers are pairwise distinct (first conjunct);
scanning in column order, a name not among the earlier output names is kept
unchanged (second conjunct), and a name that collides with an earlier output
name receives the smallest positive integer suffix whose suffixed form is
not already used by an earlier output name (third conjunct: the emitted name
is fresh, the index is at least 1, and every smaller positive index is
already taken). -/
theorem claim_C3 :
    (∀ cols, (sanitizeColumns cols).Nodup) ∧
    (∀ seen col rest, col ∉ seen →
        makeUnique seen (col :: rest) = col :: makeUnique (col :: seen) rest) ∧
    (∀ seen col rest, col ∈ seen →
        makeUnique seen (col :: rest)
            = suffixName col (freshIdx col seen) ::
                makeUnique (suffixName col (freshIdx col seen) :: seen) rest ∧
          suffixName col (freshIdx col seen) ∉ seen ∧ 1 ≤ freshIdx col seen ∧
          ∀ j, 1 ≤ j → j < freshIdx col seen → suffixName col j ∈ seen) := by
  refine ⟨sanitizeColumns_nodup, fun seen col rest h => ?_, fun seen col rest h => ?_⟩
  · rw [makeUnique_cons, if_neg h]
  · exact ⟨by rw [makeUnique_cons, if_pos h], (freshIdx_spec col seen).1,
      freshIdx_pos col seen, (freshIdx_spec col seen).2⟩

/-- Witness for C3: the duplicate branch on the concrete input where the
name `a` was already emitted. -/
theorem claim_C3_witness :
    makeUnique [['a']] [['a']]
        = suffixName ['a'] (freshIdx ['a'] [['a']]) ::
            makeUnique (suffixName ['a'] (freshIdx ['a'] [['a']]) :: [['a']]) [] ∧
      suffixName ['a'] (freshIdx ['a'] [['a']]) ∉ [['a']] ∧
      1 ≤ freshIdx ['a'] [['a']] ∧
      ∀ j, 1 ≤ j → j < freshIdx ['a'] [['a']] → suffixName ['a'] j ∈ [['a']] :=
  claim_C3.2.2 [['a']] ['a'] [] (by decide)

/-- Claim C4: the full column sanitization is idempotent: every output name
is free of blocklist characters, already collapsed, and non-empty, and the
output list is duplicate-free, so a second pass changes nothing. -/
theorem claim_C4 :
    ∀ cols, sanitizeColumns (sanitizeColumns cols) = sanitizeColumns cols := by
  intro cols
  have hprops := sanitizeColumns_props cols
  have h1 : (sanitizeColumns cols).map cleanName = sanitizeColumns cols := by
    conv_rhs => rw [← List.map_id (sanitizeColumns cols)]
    exact List.map_congr_left fun y hy => cleanName_fix y (hprops y hy).2.1
  have h2 : (sanitizeColumns cols).map collapseName = sanitizeColumns cols := by
    conv_rhs => rw [← List.map_id (sanitizeColumns cols)]
    exact List.map_congr_left fun y hy => (hprops y hy).2.2
  have h3 : placeholderPass 0 (sanitizeColumns cols) = sanitizeColumns cols :=
    placeholderPass_id _ 0 fun x hx => (hprops x hx).1
  rw [show sanitizeColumns (sanitizeColumns cols)
        = makeUnique []
            (placeholderPass 0
              (((sanitizeColumns cols).map cleanName).map collapseName)) from rfl,
      h1, h2, h3]
  exact makeUnique_id _ [] (sanitizeColumns_nodup cols) fun x _ hx =>
    List.not_mem_nil x hx

/-- Claim C5: for a valid (non-degenerate) frame, ingestion succeeds and the
returned table has `min(original_row_count, sample_size or
original_row_count)` rows, mirroring Python truthiness where `None` and `0`
fall back to the row count; when the sample size is absent or at least the
row count, the rows are exactly the source rows in source order. -/
theorem claim_C5 :
    ∀ g (df : Frame) (tn : List Char) (ss : Option Nat),
      df.rows ≠ [] → df.cols ≠ [] →
      ∃ t, ingestFromDF g df tn ss = Except.ok t ∧
        t.rows.length = min df.rows.length (pyOr ss df.rows.length) ∧
        ((ss = Option.none ∨ ∃ n, ss = some n ∧ df.rows.length ≤ n) →
          t.rows = df.rows) := by
  intro g df tn ss h1 h2
  cases ss with
  | none =>
    refine ⟨_, ingestFromDF_none g df tn h1 h2, ?_, fun _ => rfl⟩
    simp [pyOr]
  | some n =>
    refine ⟨_, ingestFromDF_some g df tn n h1 h2, ?_, ?_⟩
    · by_cases hn0 : n = 0
      · rw [if_neg (by omega)]
        simp [pyOr, hn0]
      · by_cases hlt : n < df.rows.length
        · rw [if_pos ⟨hn0, hlt⟩]
          show (sampleRows 42 n df.rows).length = _
          rw [sampleRows_length]
          simp only [pyOr, if_neg hn0]
          omega
        · rw [if_neg (by omega)]
          simp only [pyOr, if_neg hn0]
          show df.rows.length = _
          omega
    · rintro (hcon | ⟨n', hn', hle⟩)
      · exact absurd hcon (by simp)
      · rw [if_neg (by cases hn'; omega)]

/-- Witness for C5: a two-row frame sampled down to one row. -/
theorem claim_C5_witness :
    ∃ t, ingestFromDF 0 exFrame ['t'] (some 1) = Except.ok t ∧
      t.rows.length = min exFrame.rows.length (pyOr (some 1) exFrame.rows.length) ∧
      (((some 1 : Option Nat) = Option.none ∨
          ∃ n, (some 1 : Option Nat) = some n ∧ exFrame.rows.length ≤ n) →
        t.rows = exFrame.rows) :=
  claim_C5 0 exFrame ['t'] (some 1) (by simp [exFrame]) (by simp [exFrame])

/-- Claim C6: a frame with zero records makes ingestion fail with the
empty-source error, for every sample size — the emptiness check precedes the
sampling step — and no table is produced. -/
theorem claim_C6 :
    ∀ g (df : Frame) (tn : List Char) (ss : Option Nat), df.rows = [] →
      ingestFromDF g df tn ss = Except.error IngestErr.emptySource := by
  intro g df tn ss h
  rw [ingestFromDF_eq, h]
  simp

/-- Witness for C6: the concrete empty frame with a requested sample. -/
theorem claim_C6_witness :
    ingestFromDF 0 exFrameEmpty ['t'] (some 5) = Except.error IngestErr.emptySource :=
  claim_C6 0 exFrameEmpty ['t'] (some 5) rfl

/-- Claim C7 (amended): for a file whose name matches neither recognized
extension, `get_file_info` returns Python `None` — no info record and no
error value — rather than failing with an `UnsupportedFormat` error, because
its `try` block has no arm for unrecognized extensions and falls through. -/
theorem claim_C7 :
    ∀ f : SourceFile, endsWithCsv f.name = false → endsWithJson f.name = false →
      getFileInfo f = Option.none := by
  intro f h1 h2
  rw [getFileInfo]
  rw [if_neg (by simp [h1]), if_neg (by simp [h2])]

/-- Counterexample for C7 as stated: on the concrete upload `data.txt` the
inspection returns `None`: it produces neither an error value (as the claim
asserts) nor a normal info record. -/
theorem claim_C7_counterexample :
    getFileInfo exTxtFile = Option.none ∧
      isErrorInfo (getFileInfo exTxtFile) = false ∧
      isNormalInfo (getFileInfo exTxtFile) = false := by
  decide

/-- Witness for C7: the amended theorem applied to the concrete upload
`data.db`. -/
theorem claim_C7_witness : getFileInfo exDbFile = Option.none :=
  claim_C7 exDbFile (by decide) (by decide)

/-- Claim C8 (amended): JSON ingestion fails with the unsupported-shape
error exactly when the parsed value is a scalar — neither an array nor an
object.  Arrays of any element shape are accepted (handed to the frame
constructor whole), and every object is accepted: a single-key object whose
value is an array uses that array as the rows, a single-key object with a
non-array value wraps the value as one row, and any other object is wrapped
as a one-row table. -/
theorem claim_C8 :
    ∀ g (v : JValue) (tn : List Char) (ss : Option Nat),
      (ingestJSON g v tn ss = Except.error IngestErr.unsupportedJSONShape ↔
        jIsScalar v = true) ∧
      (jsonToDF v = Except.error IngestErr.unsupportedJSONShape ↔
        jIsScalar v = true) := by
  intro g v tn ss
  have hdf : jsonToDF v = Except.error IngestErr.unsupportedJSONShape ↔
      jIsScalar v = true := by
    constructor
    · intro h
      by_contra hcon
      obtain ⟨df, hok⟩ := jsonToDF_ok v (by simpa using hcon)
      rw [hok] at h
      exact absurd h (by simp)
    · exact jsonToDF_scalar v
  refine ⟨⟨fun h => ?_, fun h => ?_⟩, hdf⟩
  · rw [ingestJSON_eq] at h
    cases hq : jsonToDF v with
    | error e =>
      rw [hq] at h
      exact hdf.mp (by rw [hq, Except.error.inj h])
    | ok df =>
      rw [hq] at h
      exact absurd h (ingestFromDF_ne_shape g df tn ss)
  · rw [ingestJSON_eq, jsonToDF_scalar v h]

/-- Counterexample for C8 as stated: the parsed array `[1, 2, 3]` is not an
array of objects, not a single-key object holding an array of objects, and
not a bare object — so by the claim it should fail with the
unsupported-shape error — yet both the frame conversion and the full JSON
ingestion succeed on it. -/
theorem claim_C8_counterexample :
    claimAccepts exScalarArray = false ∧
      exceptIsOk (jsonToDF exScalarArray) = true ∧
      exceptIsOk (ingestJSON 0 exScalarArray ['t'] Option.none) = true := by
  decide

/-- Witness for C8: the scalar JSON value `5` makes ingestion fail with the
unsupported-shape error. -/
theorem claim_C8_witness :
    ingestJSON 0 (JValue.jint 5) ['t'] Option.none
      = Except.error IngestErr.unsupportedJSONShape :=
  ((claim_C8 0 (JValue.jint 5) ['t'] Option.none).1).mpr (by decide)

/-- Claim C9 (amended): per-column inference maps a non-empty column of
whole numbers **containing no nulls** to Integer; a column of numbers with a
float present to Real; a column of whole numbers and at least one null to
Real (pandas stores the missing value as NaN, widening the column to
float64); an entirely-null column to Text; any column containing a string to
Text; and the concrete examples `[1,2,3] -> Integer`, `[1,2.5,3] -> Real`,
`[1,"x",3] -> Text`, `[None,None] -> Text` hold.  Inference is a total
function into the SQL type enumeration, so it never fails. -/
theorem claim_C9 :
    (∀ vs : List PyVal, vs ≠ [] → vs.all isIntVal = true →
        inferColType vs = SqlTy.integer) ∧
    (∀ vs : List PyVal, vs.any isFloatVal = true →
        vs.all (fun v => isIntVal v || isFloatVal v) = true →
        inferColType vs = SqlTy.real) ∧
    (∀ vs : List PyVal, vs.any isIntVal = true → vs.any pdIsna = true →
        vs.all (fun v => pdIsna v || isIntVal v || isFloatVal v) = true →
        inferColType vs = SqlTy.real) ∧
    (∀ vs : List PyVal, vs ≠ [] → vs.all pdIsna = true →
        inferColType vs = SqlTy.text) ∧
    (∀ vs : List PyVal, vs.any isStrVal = true → inferColType vs = SqlTy.text) ∧
    inferColType [PyVal.int 1, PyVal.int 2, PyVal.int 3] = SqlTy.integer ∧
    inferColType [PyVal.int 1, PyVal.float (5 / 2), PyVal.int 3] = SqlTy.real ∧
    inferColType [PyVal.int 1, PyVal.str ['x'], PyVal.int 3] = SqlTy.text ∧
    inferColType [PyVal.none, PyVal.none] = SqlTy.text := by
  refine ⟨?_, ?_, ?_, ?_, ?_, by decide, by decide, by decide, by decide⟩
  · intro vs hne hall
    have hmem : ∀ v ∈ vs, isIntVal v = true := by
      simpa using hall
    obtain ⟨x, xs, rfl⟩ := List.exists_cons_of_ne_nil hne
    have hx := isIntVal_facts x (hmem x (List.mem_cons_self x xs))
    have c1 : ((x :: xs).all pdIsna) = false := by
      simp [List.all_cons, hx.1]
    have c2 : ((x :: xs).any isStrVal) = false := by
      simp only [List.any_eq_false]
      intro v hv
      simp [(isIntVal_facts v (hmem v hv)).2.1]
    have c3 : ((x :: xs).all isBoolVal) = false := by
      simp [List.all_cons, hx.2.2.1]
    rw [inferColType, seriesDtype_def, c1, c2, c3, hall]
    rfl
  · intro vs hany hall
    have hmem : ∀ v ∈ vs, (isIntVal v || isFloatVal v) = true := by
      simpa using hall
    obtain ⟨x, hxmem, hxf⟩ : ∃ x ∈ vs, isFloatVal x = true := by
      simpa using hany
    have hxfacts := isFloatVal_facts x hxf
    have c1 : (vs.all pdIsna) = false := by
      rw [List.all_eq_false]
      exact ⟨x, hxmem, by simp [hxfacts.1]⟩
    have c2 : (vs.any isStrVal) = false := by
      simp only [List.any_eq_false]
      intro v hv
      rcases Bool.or_eq_true_iff.mp (hmem v hv) with h | h
      · simp [(isIntVal_facts v h).2.1]
      · simp [(isFloatVal_facts v h).2.1]
    have c3 : (vs.all isBoolVal) = false := by
      rw [List.all_eq_false]
      exact ⟨x, hxmem, by simp [hxfacts.2.2.1]⟩
    have c4 : (vs.all isIntVal) = false := by
      rw [List.all_eq_false]
      exact ⟨x, hxmem, by simp [hxfacts.2.2.2]⟩
    have c5 : (vs.all fun v => pdIsna v || isIntVal v || isFloatVal v) = true := by
      simp only [List.all_eq_true]
      intro v hv
      rcases Bool.or_eq_true_iff.mp (hmem v hv) with h | h <;> simp [h]
    rw [inferColType, seriesDtype_def, c1, c2, c3, c4, c5]
    rfl
  · intro vs hint hna hall
    have hmem : ∀ v ∈ vs, (pdIsna v || isIntVal v || isFloatVal v) = true := by
      simpa using hall
    obtain ⟨x, hxmem, hxi⟩ : ∃ x ∈ vs, isIntVal x = true := by
      simpa using hint
    obtain ⟨y, hymem, hyna⟩ : ∃ y ∈ vs, pdIsna y = true := by
      simpa using hna
    have c1 : (vs.all pdIsna) = false := by
      rw [List.all_eq_false]
      exact ⟨x, hxmem, by simp [(isIntVal_facts x hxi).1]⟩
    have c2 : (vs.any isStrVal) = false := by
      simp only [List.any_eq_false]
      intro v hv
      simp [(numericOrNull_facts v (hmem v hv)).1]
    have c3 : (vs.all isBoolVal) = false := by
      rw [List.all_eq_false]
      exact ⟨x, hxmem, by simp [(isIntVal_facts x hxi).2.2.1]⟩
    have c4 : (vs.all isIntVal) = false := by
      rw [List.all_eq_false]
      exact ⟨y, hymem, by simp [pdIsna_int_false y hyna]⟩
    rw [inferColType, seriesDtype_def, c1, c2, c3, c4, hall]
    rfl
  · intro vs _ hall
    rw [inferColType, seriesDtype_def, hall]
    rfl
  · intro vs hany
    obtain ⟨x, hxmem, hxs⟩ : ∃ x ∈ vs, isStrVal x = true := by
      simpa using hany
    have c1 : (vs.all pdIsna) = false := by
      rw [List.all_eq_false]
      refine ⟨x, hxmem, ?_⟩
      cases x <;> simp_all [isStrVal, pdIsna]
    rw [inferColType, seriesDtype_def, c1, hany]
    rfl

/-- Counterexample for C9 as stated: in the column `[1, None]` every
non-null value is a whole number, yet the inferred type is Real, not
Integer — pandas represents the missing entry as NaN and widens the column
to float64, which the source maps to REAL. -/
theorem claim_C9_counterexample :
    (([PyVal.int 1, PyVal.none].filter fun v => !pdIsna v).all isIntVal) = true ∧
      inferColType [PyVal.int 1, PyVal.none] = SqlTy.real ∧
      SqlTy.real ≠ SqlTy.integer := by
  decide

/-- Witness for C9: the no-null whole-number conjunct applied at `[7]`. -/
theorem claim_C9_witness : inferColType [PyVal.int 7] = SqlTy.integer :=
  claim_C9.1 [PyVal.int 7] (by simp) (by decide)

/-- Claim C10: the `isinstance(value, bool)` branch of the insert renderer
is unreachable — every boolean already satisfies the earlier
`isinstance(value, (int, float))` test because Python's `bool` subclasses
`int` — so booleans are emitted via `str(value)` as the unquoted tokens
`True`/`False`, never as `1`/`0`. -/
theorem claim_C10 :
    (∀ v, (isinstanceBool v && !isinstanceIntFloat v) = false) ∧
    (∀ b, renderValue (PyVal.bool b) = pyStr (PyVal.bool b)) ∧
    renderValue (PyVal.bool true) = ['T', 'r', 'u', 'e'] ∧
    renderValue (PyVal.bool false) = ['F', 'a', 'l', 's', 'e'] ∧
    renderValue (PyVal.bool true) ≠ ['1'] ∧
    renderValue (PyVal.bool false) ≠ ['0'] := by
  refine ⟨fun v => ?_, fun b => ?_, by decide, by decide, by decide, by decide⟩
  · cases v <;> rfl
  · cases b <;> rfl

end SqlIngest
